import Mathlib

/-!
Verification of the MRU page-replacement engine `mru_page_replacement`
(src/main.py, lines 7-60).

Embedding notes:
* Pages are Python ints, embedded as `Int`.
* `frames` (the FrameSet) is a Python list of ints, embedded as `List Int`.
* `last_used` is a Python dict mapping page to the index of its most recent
  occurrence; it is embedded as an association list with in-place overwrite
  (`setAssoc`), which has the same lookup/update semantics as the dict.
* `last_used.get(p, -1)` is embedded as `getRecency`, returning `-1 : Int`
  when there is no entry.
* `frames.index(x)` is `List.indexOf`; `x in frames` is `List.contains`.
* In Python, `frames.index(mru_page)` raises `ValueError` when `mru_page` is
  `None` (the victim scan found no element with recency above the initial
  `-1`); this non-local exit is embedded as `Except.error`, which aborts the
  run exactly as the uncaught exception does.
* The `while len(frame_state) < frame_count` padding loop (lines 46-47)
  appends one marker per iteration, hence runs `frame_count - len(frame_state)`
  iterations when the length is short and none otherwise; `padGo` performs
  exactly those appends.
* The `frame_count` slider value is a non-negative Python int, embedded as
  `Nat`; for every `frame_count ≤ 0` the code behaves identically (the
  capacity test `len(frames) < frame_count` is always false and the padding
  loop never runs), so `0 : Nat` models the whole class `frame_count < 1`.
* `fault_rate = faults / total * 100` is Python float arithmetic; it is
  embedded exactly over `Rat` (the operands here are small integers, and the
  claims are about the formula, not about rounding).
* The per-step dicts collected in `steps_data` (and turned into a DataFrame)
  are embedded as `StepRecord`s; the `" | ".join` of the frame snapshot is
  presentation-only and the snapshot is kept as the list of slot strings the
  join consumes.
-/

/-- One row of `steps_data` (src/main.py lines 49-54): step number (1-based),
the referenced page, the padded frame snapshot, and the "Hit"/"Fault" tag. -/
structure StepRecord where
  step : Nat
  page : Int
  frameState : List String
  hitFault : String
deriving DecidableEq

/-- The loop state of `mru_page_replacement`: `frames`, `last_used`, `faults`
and the accumulated `steps_data`. -/
structure SimState where
  frames : List Int
  lastUsed : List (Int × Nat)
  faults : Nat
  stepsData : List StepRecord
deriving DecidableEq

/-- Dict write `last_used[page] = i`: overwrite the existing binding in place,
or append a fresh one. -/
def setAssoc (m : List (Int × Nat)) (k : Int) (v : Nat) : List (Int × Nat) :=
  match m with
  | [] => [(k, v)]
  | (k0, v0) :: rest => if k0 = k then (k, v) :: rest else (k0, v0) :: setAssoc rest k v

/-- `last_used.get(p, -1)` (src/main.py line 33). -/
def getRecency (lastUsed : List (Int × Nat)) (p : Int) : Int :=
  match lastUsed.lookup p with
  | some n => (n : Int)
  | none => -1

/-- The victim scan of src/main.py lines 30-36: fold over `frames` carrying
`(mru_page, mru_index)`, replacing the pair whenever a strictly larger
recency is seen. -/
def victimFold (lastUsed : List (Int × Nat)) (acc : Option Int × Int) :
    List Int → Option Int × Int
  | [] => acc
  | p :: rest =>
    if getRecency lastUsed p > acc.2 then
      victimFold lastUsed (some p, getRecency lastUsed p) rest
    else
      victimFold lastUsed acc rest

/-- The selected `mru_page` after the scan, starting from `(None, -1)`. -/
def selectVictim (frames : List Int) (lastUsed : List (Int × Nat)) : Option Int :=
  (victimFold lastUsed (none, -1) frames).1

/-- The frame update of one iteration (src/main.py lines 21-39): hits leave
`frames` alone; faults append while capacity remains, otherwise replace the
victim slot in place. `Except.error` models the `ValueError` that
`frames.index(None)` raises when the scan selected no victim. -/
def framesUpdate (frameCount : Nat) (frames : List Int) (lastUsed : List (Int × Nat))
    (page : Int) : Except String (List Int) :=
  if frames.contains page then
    .ok frames
  else if frames.length < frameCount then
    .ok (frames ++ [page])
  else
    match selectVictim frames lastUsed with
    | none => .error "ValueError: None is not in list"
    | some v => .ok (frames.set (frames.indexOf v) page)

/-- The padding appends of src/main.py lines 46-47, one marker per step. -/
def padGo : List String → Nat → List String
  | l, 0 => l
  | l, n + 1 => padGo (l ++ ["-"]) n

/-- `frame_state` padding: append `"-"` while the length is below
`frame_count`. -/
def padSlots (l : List String) (frameCount : Nat) : List String :=
  padGo l (frameCount - l.length)

/-- One iteration of the main loop (src/main.py lines 19-54) at position `i`
referencing `page`. -/
def mruStep (frameCount : Nat) (i : Nat) (page : Int) (st : SimState) :
    Except String SimState :=
  let hit := st.frames.contains page
  match framesUpdate frameCount st.frames st.lastUsed page with
  | .error e => .error e
  | .ok frames1 =>
    .ok { frames := frames1
          lastUsed := setAssoc st.lastUsed page i
          faults := if hit then st.faults else st.faults + 1
          stepsData := st.stepsData ++
            [{ step := i + 1
               page := page
               frameState := padSlots (frames1.map (fun x => toString x)) frameCount
               hitFault := if hit then "Hit" else "Fault" }] }

/-- The main loop over the remaining suffix of `page_sequence`, with `i` the
0-based position of its first element. -/
def mruLoop (frameCount : Nat) : Nat → List Int → SimState → Except String SimState
  | _, [], st => .ok st
  | i, p :: rest, st =>
    match mruStep frameCount i p st with
    | .error e => .error e
    | .ok st1 => mruLoop frameCount (i + 1) rest st1

/-- The fresh state of lines 14-17: empty frames, empty dict, zero faults. -/
def initState : SimState := { frames := [], lastUsed := [], faults := 0, stepsData := [] }

/-- `mru_page_replacement(page_sequence, frame_count)` (src/main.py lines
7-60): run the loop from the fresh state and return
`(faults, fault_rate, steps_data)`, where
`fault_rate = faults / total * 100` if `total > 0` else `0.0` (line 57). -/
def mru_page_replacement (page_sequence : List Int) (frame_count : Nat) :
    Except String (Nat × Rat × List StepRecord) :=
  match mruLoop frame_count 0 page_sequence initState with
  | .error e => .error e
  | .ok st =>
    .ok (st.faults,
         if 0 < page_sequence.length then
           (st.faults : Rat) / (page_sequence.length : Rat) * 100
         else 0,
         st.stepsData)

/-- The list of loop states visited by `mruLoop` (the state at the top of each
iteration and the final state; a raised exception truncates the list). -/
def mruLoopStates (frameCount : Nat) : Nat → List Int → SimState → List SimState
  | _, [], st => [st]
  | i, p :: rest, st =>
    match mruStep frameCount i p st with
    | .error _ => [st]
    | .ok st1 => st :: mruLoopStates frameCount (i + 1) rest st1

/-! ### Helper lemmas about the embedded primitives -/

theorem lookup_cons (k2 k : Int) (v : Nat) (rest : List (Int × Nat)) :
    List.lookup k2 ((k, v) :: rest) = if k2 = k then some v else List.lookup k2 rest := by
  by_cases h : k2 = k
  · subst h; simp [List.lookup]
  · have hb : (k2 == k) = false := by simp [h]
    simp [List.lookup, hb, h]

theorem lookup_setAssoc (m : List (Int × Nat)) (k : Int) (v : Nat) (k2 : Int) :
    (setAssoc m k v).lookup k2 = if k2 = k then some v else m.lookup k2 := by
  induction m with
  | nil =>
    rw [show setAssoc [] k v = [(k, v)] from rfl, lookup_cons]
  | cons hd tl ih =>
    obtain ⟨k0, v0⟩ := hd
    by_cases h0 : k0 = k
    · subst h0
      by_cases h : k2 = k0 <;> simp [setAssoc, lookup_cons, h]
    · by_cases h : k2 = k0
      · subst h
        rw [show setAssoc ((k2, v0) :: tl) k v = (k2, v0) :: setAssoc tl k v by
              simp [setAssoc, h0]]
        rw [lookup_cons, lookup_cons]
        simp [h0]
      · rw [show setAssoc ((k0, v0) :: tl) k v = (k0, v0) :: setAssoc tl k v by
              simp [setAssoc, h0]]
        rw [lookup_cons, lookup_cons, ih]
        simp [h]

theorem nodup_set (l : List Int) (j : Nat) (a : Int) (hnd : l.Nodup) (ha : a ∉ l) :
    (l.set j a).Nodup := by
  induction l generalizing j with
  | nil => simp
  | cons x xs ih =>
    rw [List.nodup_cons] at hnd
    cases j with
    | zero =>
      simp only [List.set]
      rw [List.nodup_cons]
      exact ⟨fun h => ha (List.mem_cons_of_mem x h), hnd.2⟩
    | succ j =>
      simp only [List.set]
      rw [List.nodup_cons]
      refine ⟨fun h => ?_, ih j hnd.2 (fun h => ha (List.mem_cons_of_mem x h))⟩
      rcases List.mem_or_eq_of_mem_set h with h1 | h1
      · exact hnd.1 h1
      · exact ha (h1 ▸ List.mem_cons_self x xs)

theorem padGo_eq (n : Nat) : ∀ l : List String, padGo l n = l ++ List.replicate n "-" := by
  induction n with
  | zero => intro l; simp [padGo]
  | succ n ih =>
    intro l
    rw [padGo, ih, List.append_assoc]
    simp [List.replicate_succ]

theorem padSlots_eq (l : List String) (fc : Nat) :
    padSlots l fc = l ++ List.replicate (fc - l.length) "-" := padGo_eq _ _

theorem padSlots_length (l : List String) (fc : Nat) (h : l.length ≤ fc) :
    (padSlots l fc).length = fc := by
  rw [padSlots_eq]
  simp only [List.length_append, List.length_replicate]
  omega

theorem getRecency_none (lu : List (Int × Nat)) (q : Int) (hq : lu.lookup q = none) :
    getRecency lu q = -1 := by
  simp [getRecency, hq]

theorem getRecency_some (lu : List (Int × Nat)) (q : Int) (n : Nat)
    (hq : lu.lookup q = some n) : getRecency lu q = (n : Int) := by
  simp [getRecency, hq]

/-! ### Victim selection -/

theorem victimFold_spec (lu : List (Int × Nat)) :
    ∀ (l : List Int) (o : Option Int) (m : Int),
      (victimFold lu (o, m) l = (o, m) ∧ ∀ q ∈ l, getRecency lu q ≤ m) ∨
      (∃ v l1 l2, l = l1 ++ v :: l2 ∧
        victimFold lu (o, m) l = (some v, getRecency lu v) ∧
        m < getRecency lu v ∧
        (∀ q ∈ l1, getRecency lu q < getRecency lu v) ∧
        (∀ q ∈ l2, getRecency lu q ≤ getRecency lu v)) := by
  intro l
  induction l with
  | nil =>
    intro o m
    left
    exact ⟨rfl, by simp⟩
  | cons p rest ih =>
    intro o m
    by_cases h : getRecency lu p > m
    · rw [show victimFold lu (o, m) (p :: rest) =
            victimFold lu (some p, getRecency lu p) rest by simp [victimFold, h]]
      rcases ih (some p) (getRecency lu p) with ⟨heq, hall⟩ | ⟨v, l1, l2, hsplit, hres, hlt, h1, h2⟩
      · right
        exact ⟨p, [], rest, by simp, heq, h, by simp, hall⟩
      · right
        refine ⟨v, p :: l1, l2, by simp [hsplit], hres, lt_trans h hlt, ?_, h2⟩
        intro q hq
        rcases List.mem_cons.mp hq with hq | hq
        · exact hq ▸ hlt
        · exact h1 q hq
    · rw [show victimFold lu (o, m) (p :: rest) = victimFold lu (o, m) rest by
            simp [victimFold, h]]
      rcases ih o m with ⟨heq, hall⟩ | ⟨v, l1, l2, hsplit, hres, hlt, h1, h2⟩
      · left
        refine ⟨heq, ?_⟩
        intro q hq
        rcases List.mem_cons.mp hq with hq | hq
        · exact hq ▸ le_of_not_lt h
        · exact hall q hq
      · right
        refine ⟨v, p :: l1, l2, by simp [hsplit], hres, hlt, ?_, h2⟩
        intro q hq
        rcases List.mem_cons.mp hq with hq | hq
        · exact hq ▸ lt_of_le_of_lt (le_of_not_lt h) hlt
        · exact h1 q hq

theorem victimFold_fst_mem (lu : List (Int × Nat)) :
    ∀ (l : List Int) (o : Option Int) (m : Int) (v : Int),
      (victimFold lu (o, m) l).1 = some v → o = some v ∨ v ∈ l := by
  intro l
  induction l with
  | nil =>
    intro o m v h
    exact Or.inl h
  | cons p rest ih =>
    intro o m v h
    by_cases hp : getRecency lu p > m
    · rw [show victimFold lu (o, m) (p :: rest) =
            victimFold lu (some p, getRecency lu p) rest by simp [victimFold, hp]] at h
      rcases ih (some p) (getRecency lu p) v h with h1 | h1
      · exact Or.inr (by simp [(Option.some_inj.mp h1).symm])
      · exact Or.inr (List.mem_cons_of_mem p h1)
    · rw [show victimFold lu (o, m) (p :: rest) = victimFold lu (o, m) rest by
            simp [victimFold, hp]] at h
      rcases ih o m v h with h1 | h1
      · exact Or.inl h1
      · exact Or.inr (List.mem_cons_of_mem p h1)

theorem selectVictim_mem (frames : List Int) (lu : List (Int × Nat)) (v : Int)
    (h : selectVictim frames lu = some v) : v ∈ frames := by
  rcases victimFold_fst_mem lu frames none (-1) v h with h1 | h1
  · exact absurd h1 (by simp)
  · exact h1

/-- The full victim-selection contract: if some resident has a recency above
the initial `-1`, the scan picks the resident with the largest recency, and on
ties the one encountered earliest in `frames` iteration order (every element
strictly before the victim has strictly smaller recency). -/
theorem selectVictim_spec (frames : List Int) (lu : List (Int × Nat))
    (h : ∃ q ∈ frames, -1 < getRecency lu q) :
    ∃ v l1 l2, selectVictim frames lu = some v ∧ frames = l1 ++ v :: l2 ∧
      (∀ q ∈ frames, getRecency lu q ≤ getRecency lu v) ∧
      (∀ q ∈ l1, getRecency lu q < getRecency lu v) := by
  rcases victimFold_spec lu frames none (-1) with ⟨heq, hall⟩ | ⟨v, l1, l2, hsplit, hres, hlt, h1, h2⟩
  · obtain ⟨q, hq, hql⟩ := h
    exact absurd (hall q hq) (not_le_of_lt hql)
  · refine ⟨v, l1, l2, ?_, hsplit, ?_, h1⟩
    · rw [selectVictim, hres]
    · intro q hq
      rw [hsplit] at hq
      rcases List.mem_append.mp hq with hq | hq
      · exact le_of_lt (h1 q hq)
      · rcases List.mem_cons.mp hq with hq | hq
        · exact hq ▸ le_refl _
        · exact h2 q hq

/-! ### Frame update and the loop-state invariant -/

theorem framesUpdate_ok_cases (fc : Nat) (frames : List Int) (lu : List (Int × Nat))
    (page : Int) (frames1 : List Int)
    (h : framesUpdate fc frames lu page = .ok frames1) :
    (frames.contains page = true ∧ frames1 = frames) ∨
    (frames.contains page = false ∧ frames.length < fc ∧ frames1 = frames ++ [page]) ∨
    (frames.contains page = false ∧ ¬ frames.length < fc ∧
      ∃ v, selectVictim frames lu = some v ∧
        frames1 = frames.set (frames.indexOf v) page) := by
  by_cases hc : frames.contains page
  · left
    rw [framesUpdate, if_pos hc] at h
    cases h
    exact ⟨hc, rfl⟩
  · by_cases hl : frames.length < fc
    · right; left
      rw [framesUpdate, if_neg hc, if_pos hl] at h
      refine ⟨Bool.not_eq_true _ ▸ hc, hl, ?_⟩
      cases h
      rfl
    · right; right
      rw [framesUpdate, if_neg hc, if_neg hl] at h
      refine ⟨Bool.not_eq_true _ ▸ hc, hl, ?_⟩
      cases hv : selectVictim frames lu with
      | none => rw [hv] at h; cases h
      | some v =>
        rw [hv] at h
        cases h
        exact ⟨v, rfl, rfl⟩

theorem framesUpdate_preserves (fc : Nat) (frames : List Int) (lu : List (Int × Nat))
    (page : Int) (frames1 : List Int)
    (hnd : frames.Nodup) (hlen : frames.length ≤ fc)
    (h : framesUpdate fc frames lu page = .ok frames1) :
    frames1.Nodup ∧ frames1.length ≤ fc ∧ (∀ p ∈ frames1, p = page ∨ p ∈ frames) := by
  rcases framesUpdate_ok_cases fc frames lu page frames1 h with
    ⟨_, rfl⟩ | ⟨hc, hl, rfl⟩ | ⟨hc, _, v, hv, rfl⟩
  · exact ⟨hnd, hlen, fun p hp => Or.inr hp⟩
  · have hpm : page ∉ frames := by simpa using hc
    refine ⟨?_, by simp; omega, ?_⟩
    · simp [List.nodup_append, hnd, hpm]
    · intro p hp
      rcases List.mem_append.mp hp with hp | hp
      · exact Or.inr hp
      · exact Or.inl (by simpa using hp)
  · have hpm : page ∉ frames := by simpa using hc
    refine ⟨nodup_set _ _ _ hnd hpm, by simpa using hlen, ?_⟩
    intro p hp
    rcases List.mem_or_eq_of_mem_set hp with hp | hp
    · exact Or.inr hp
    · exact Or.inl hp

/-- Every identifier resident in `frames` has an entry in `last_used`. -/
def ResidentsRecorded (frames : List Int) (lastUsed : List (Int × Nat)) : Prop :=
  ∀ p ∈ frames, (lastUsed.lookup p).isSome

/-- The loop invariant of `mru_page_replacement`: the frames are duplicate
free, within capacity, and every resident has a recency entry. -/
def GoodState (fc : Nat) (st : SimState) : Prop :=
  st.frames.Nodup ∧ st.frames.length ≤ fc ∧ ResidentsRecorded st.frames st.lastUsed

theorem initState_good (fc : Nat) : GoodState fc initState := by
  refine ⟨by simp [initState], by simp [initState], ?_⟩
  intro p hp
  simp [initState] at hp

/-- Decomposition of a successful step: the new state is the old one with the
updated frames, the unconditional recency write, the conditional fault count,
and one appended step record. -/
theorem mruStep_ok_iff (fc i : Nat) (page : Int) (st st1 : SimState) :
    mruStep fc i page st = .ok st1 ↔
      ∃ frames1, framesUpdate fc st.frames st.lastUsed page = .ok frames1 ∧
        st1 = { frames := frames1
                lastUsed := setAssoc st.lastUsed page i
                faults := if st.frames.contains page then st.faults else st.faults + 1
                stepsData := st.stepsData ++
                  [{ step := i + 1
                     page := page
                     frameState := padSlots (frames1.map (fun x => toString x)) fc
                     hitFault := if st.frames.contains page then "Hit" else "Fault" }] } := by
  constructor
  · intro h
    rw [mruStep] at h
    cases hf : framesUpdate fc st.frames st.lastUsed page with
    | error e => rw [hf] at h; cases h
    | ok frames1 =>
      rw [hf] at h
      cases h
      exact ⟨frames1, rfl, rfl⟩
  · rintro ⟨frames1, hf, rfl⟩
    rw [mruStep, hf]

theorem mruStep_good (fc i : Nat) (page : Int) (st st1 : SimState)
    (hg : GoodState fc st) (h : mruStep fc i page st = .ok st1) : GoodState fc st1 := by
  obtain ⟨frames1, hf, rfl⟩ := (mruStep_ok_iff fc i page st st1).mp h
  obtain ⟨hnd, hlen, hmem⟩ :=
    framesUpdate_preserves fc st.frames st.lastUsed page frames1 hg.1 hg.2.1 hf
  refine ⟨hnd, hlen, ?_⟩
  intro p hp
  rcases hmem p hp with hp1 | hp1
  · subst hp1
    rw [lookup_setAssoc, if_pos rfl]
    rfl
  · rw [lookup_setAssoc]
    by_cases hpk : p = page
    · rw [if_pos hpk]; rfl
    · rw [if_neg hpk]
      exact hg.2.2 p hp1

theorem mruLoopStates_good (fc : Nat) :
    ∀ (seq : List Int) (i : Nat) (st : SimState), GoodState fc st →
      ∀ s ∈ mruLoopStates fc i seq st, GoodState fc s := by
  intro seq
  induction seq with
  | nil =>
    intro i st hg s hs
    simp [mruLoopStates] at hs
    exact hs ▸ hg
  | cons p rest ih =>
    intro i st hg s hs
    rw [mruLoopStates] at hs
    cases hstep : mruStep fc i p st with
    | error e =>
      rw [hstep] at hs
      simp at hs
      exact hs ▸ hg
    | ok st1 =>
      rw [hstep] at hs
      rcases List.mem_cons.mp hs with hs | hs
      · exact hs ▸ hg
      · exact ih (i + 1) st1 (mruStep_good fc i p st st1 hg hstep) s hs

/-- Master lemma about a successful run of the loop: the invariant is kept,
one record per processed reference is appended in order (with 1-based step
numbers continuing from `i`), the fault counter grows by exactly the number of
appended records tagged "Fault", and every appended snapshot is the padding of
a duplicate-free within-capacity frame list. -/
theorem mruLoop_ok_spec (fc : Nat) :
    ∀ (seq : List Int) (i : Nat) (st st2 : SimState),
      GoodState fc st → mruLoop fc i seq st = .ok st2 →
      GoodState fc st2 ∧
      ∃ t, st2.stepsData = st.stepsData ++ t ∧
        t.length = seq.length ∧
        st2.faults = st.faults + t.countP (fun r => r.hitFault == "Fault") ∧
        (∀ j, ∀ h1 : j < t.length, ∀ h2 : j < seq.length,
          (t.get ⟨j, h1⟩).step = i + j + 1 ∧ (t.get ⟨j, h1⟩).page = seq.get ⟨j, h2⟩) ∧
        (∀ rec ∈ t, ∃ fr : List Int, fr.Nodup ∧ fr.length ≤ fc ∧
          rec.frameState = padSlots (fr.map (fun x => toString x)) fc) := by
  intro seq
  induction seq with
  | nil =>
    intro i st st2 hg h
    rw [mruLoop] at h
    cases h
    refine ⟨hg, [], by simp, rfl, by simp, ?_, ?_⟩
    · intro j h1 h2
      simp at h1
    · intro rec hrec
      simp at hrec
  | cons p rest ih =>
    intro i st st2 hg h
    rw [mruLoop] at h
    cases hstep : mruStep fc i p st with
    | error e => rw [hstep] at h; cases h
    | ok st1 =>
      rw [hstep] at h
      have hg1 : GoodState fc st1 := mruStep_good fc i p st st1 hg hstep
      obtain ⟨frames1, hf, hst1⟩ := (mruStep_ok_iff fc i p st st1).mp hstep
      have hfa : st1.faults = if st.frames.contains p then st.faults else st.faults + 1 := by
        rw [hst1]
      have hfr : st1.frames = frames1 := by
        rw [hst1]
      have hsd : st1.stepsData = st.stepsData ++
          [StepRecord.mk (i + 1) p (padSlots (frames1.map (fun x => toString x)) fc)
            (if st.frames.contains p then "Hit" else "Fault")] := by
        rw [hst1]
      obtain ⟨hg2, t1, htr, hlen, hfaults, hidx, hrecs⟩ := ih (i + 1) st1 st2 hg1 h
      refine ⟨hg2, (StepRecord.mk (i + 1) p (padSlots (frames1.map (fun x => toString x)) fc)
          (if st.frames.contains p then "Hit" else "Fault")) :: t1,
          ?_, by simp [hlen], ?_, ?_, ?_⟩
      · rw [htr, hsd]
        simp
      · rw [hfaults, hfa]
        by_cases hc : p ∈ st.frames <;> simp [hc, List.countP_cons]
        all_goals omega
      · intro j h1 h2
        cases j with
        | zero => simp
        | succ j =>
          have h1a : j < t1.length := by simpa using h1
          have h2a : j < rest.length := by simpa using h2
          have := hidx j h1a h2a
          simpa [Nat.add_assoc, Nat.add_comm, Nat.add_left_comm] using this
      · intro rec hrec
        rcases List.mem_cons.mp hrec with hrec | hrec
        · subst hrec
          exact ⟨frames1, hfr ▸ hg1.1, hfr ▸ hg1.2.1, rfl⟩
        · exact hrecs rec hrec

theorem mru_ok_iff (seq : List Int) (fc : Nat) (f : Nat) (r : Rat) (t : List StepRecord) :
    mru_page_replacement seq fc = .ok (f, r, t) ↔
      ∃ st, mruLoop fc 0 seq initState = .ok st ∧ f = st.faults ∧
        r = (if 0 < seq.length then (st.faults : Rat) / (seq.length : Rat) * 100 else 0) ∧
        t = st.stepsData := by
  constructor
  · intro h
    rw [mru_page_replacement] at h
    cases hl : mruLoop fc 0 seq initState with
    | error e => rw [hl] at h; cases h
    | ok st =>
      rw [hl] at h
      cases h
      exact ⟨st, rfl, rfl, rfl, rfl⟩
  · rintro ⟨st, hl, rfl, rfl, rfl⟩
    rw [mru_page_replacement, hl]

/-- Run-level facts of a successful `mru_page_replacement` call, obtained by
instantiating the master lemma at the fresh initial state. -/
theorem mru_run_spec (seq : List Int) (fc : Nat) (f : Nat) (r : Rat) (t : List StepRecord)
    (h : mru_page_replacement seq fc = .ok (f, r, t)) :
    t.length = seq.length ∧
    f = t.countP (fun rec => rec.hitFault == "Fault") ∧
    r = (if 0 < seq.length then (f : Rat) / (seq.length : Rat) * 100 else 0) ∧
    (∀ j, ∀ h1 : j < t.length, ∀ h2 : j < seq.length,
      (t.get ⟨j, h1⟩).step = j + 1 ∧ (t.get ⟨j, h1⟩).page = seq.get ⟨j, h2⟩) ∧
    (∀ rec ∈ t, ∃ fr : List Int, fr.Nodup ∧ fr.length ≤ fc ∧
      rec.frameState = padSlots (fr.map (fun x => toString x)) fc) := by
  obtain ⟨st, hl, hf, hr, ht⟩ := (mru_ok_iff seq fc f r t).mp h
  obtain ⟨-, t0, htr, hlen, hfaults, hidx, hrecs⟩ :=
    mruLoop_ok_spec fc seq 0 initState st (initState_good fc) hl
  have ht0 : t = t0 := by
    rw [ht, htr]
    simp [initState]
  subst ht0
  have hfc : f = t.countP (fun rec => rec.hitFault == "Fault") := by
    rw [hf, hfaults]
    simp [initState]
  refine ⟨hlen, hfc, by rw [hr, hf], ?_, hrecs⟩
  intro j h1 h2
  have := hidx j h1 h2
  simpa using this

/-! ### Claims -/

/-- C4: every run emits exactly one StepRecord per input reference, in input
order: the trace has the length of the sequence and the record at position
`j` carries step number `j+1` and reference `sequence[j]`; an empty sequence
yields zero faults, rate `0.0` and an empty trace, and is not an error. -/
theorem c4_trace_shape :
    (∀ (seq : List Int) (fc f : Nat) (r : Rat) (t : List StepRecord),
      mru_page_replacement seq fc = .ok (f, r, t) →
      t.length = seq.length ∧
      ∀ j, ∀ h1 : j < t.length, ∀ h2 : j < seq.length,
        (t.get ⟨j, h1⟩).step = j + 1 ∧ (t.get ⟨j, h1⟩).page = seq.get ⟨j, h2⟩) ∧
    (∀ fc : Nat, mru_page_replacement [] fc = .ok (0, 0, [])) := by
  constructor
  · intro seq fc f r t h
    obtain ⟨hlen, -, -, hidx, -⟩ := mru_run_spec seq fc f r t h
    exact ⟨hlen, hidx⟩
  · intro fc
    rfl

/-- C4 witness: a concrete two-reference run with a trace of length two. -/
theorem c4_witness :
    ∃ (r : Rat) (t : List StepRecord), mru_page_replacement [5, 6] 1 = .ok (2, r, t) ∧
      t.length = ([5, 6] : List Int).length :=
  ⟨_, _, rfl, (c4_trace_shape.1 [5, 6] 1 2 _ _ rfl).1⟩

/-- C7: the returned fault total equals the number of trace records classified
"Fault", and the record of each step is classified "Fault" exactly when the
reference was absent from the frames at hit-test time. -/
theorem c7_fault_count :
    (∀ (seq : List Int) (fc f : Nat) (r : Rat) (t : List StepRecord),
      mru_page_replacement seq fc = .ok (f, r, t) →
      f = t.countP (fun rec => rec.hitFault == "Fault")) ∧
    (∀ (fc i : Nat) (page : Int) (st st1 : SimState),
      mruStep fc i page st = .ok st1 →
      ∃ rec, st1.stepsData = st.stepsData ++ [rec] ∧
        (rec.hitFault = "Fault" ↔ st.frames.contains page = false) ∧
        st1.faults = (if st.frames.contains page then st.faults else st.faults + 1)) := by
  constructor
  · intro seq fc f r t h
    exact (mru_run_spec seq fc f r t h).2.1
  · intro fc i page st st1 h
    obtain ⟨frames1, -, rfl⟩ := (mruStep_ok_iff fc i page st st1).mp h
    refine ⟨_, rfl, ?_, rfl⟩
    by_cases hc : st.frames.contains page
    · simp [hc]
    · have hcf : st.frames.contains page = false := by simpa using hc
      simp [hcf]

/-- C7 witness: a single-fault run where the count matches. -/
theorem c7_witness :
    ∃ (r : Rat),
      mru_page_replacement [1] 1 = .ok (1, r, [StepRecord.mk 1 1 ["1"] "Fault"]) ∧
      1 = List.countP (fun rec => rec.hitFault == "Fault") [StepRecord.mk 1 1 ["1"] "Fault"] :=
  ⟨_, rfl, c7_fault_count.1 [1] 1 1 _ _ rfl⟩

/-- C1 is false as stated: the code returns the fault rate as a percentage,
`faults / total * 100` (src/main.py line 57), not the fraction
`faults / max(1, total)`. On `sequence = [1]`, `frameCount = 1` the returned
rate is `100`, not `1`. -/
theorem c1_counterexample :
    ∃ (f : Nat) (r : Rat) (t : List StepRecord),
      mru_page_replacement [1] 1 = .ok (f, r, t) ∧
      r ≠ (f : Rat) / ((max 1 ([1] : List Int).length : Nat) : Rat) :=
  ⟨_, _, _, rfl, by norm_num [initState]⟩

/-- C1 amended: the returned fault rate equals
`faultCount * 100 / max(1, sequence.length)` — a percentage, not a fraction —
and equals `0.0` when the sequence is empty; the fault count used is exactly
the number of trace records classified "Fault". -/
theorem c1_fault_rate :
    ∀ (seq : List Int) (fc f : Nat) (r : Rat) (t : List StepRecord),
      mru_page_replacement seq fc = .ok (f, r, t) →
      r = ((t.countP (fun rec => rec.hitFault == "Fault") : Nat) : Rat) * 100 /
            ((max 1 seq.length : Nat) : Rat) ∧
      (seq.length = 0 → r = 0) := by
  intro seq fc f r t h
  obtain ⟨hlen, hcount, hr, -, -⟩ := mru_run_spec seq fc f r t h
  rcases Nat.eq_zero_or_pos seq.length with h0 | h0
  · have ht : t = [] := List.length_eq_zero.mp (by rw [hlen, h0])
    subst ht
    rw [hr, h0]
    norm_num
  · have hmax : max 1 seq.length = seq.length := Nat.max_eq_right h0
    rw [hr, hcount, hmax]
    constructor
    · rw [if_pos h0, div_mul_eq_mul_div]
    · intro h1
      omega

/-- C1 witness: on `[1]` with one frame the rate is the Fault-count percentage. -/
theorem c1_witness :
    ∃ (r : Rat),
      mru_page_replacement [1] 1 = .ok (1, r, [StepRecord.mk 1 1 ["1"] "Fault"]) ∧
      r = ((List.countP (fun rec => rec.hitFault == "Fault")
              [StepRecord.mk 1 1 ["1"] "Fault"] : Nat) : Rat) * 100 /
            ((max 1 ([1] : List Int).length : Nat) : Rat) :=
  ⟨_, rfl, (c1_fault_rate [1] 1 1 _ _ rfl).1⟩

/-- C3 is false as stated: `mru_page_replacement` performs no validation of
`frame_count` at all. With `frame_count = 0` (the `< 1` case) and an empty
sequence it returns a normal successful result instead of failing fast. -/
theorem c3_counterexample : mru_page_replacement [] 0 = .ok (0, 0, []) := rfl

/-- C3 amended: there is no `frameCount` validation and no fail-fast error.
With `frameCount < 1` an empty sequence returns the ordinary empty result,
and a nonempty sequence aborts during the victim scan of the first step with the
unhandled `ValueError` that `frames.index(None)` raises (after the fault was
already counted); only that exception reaches the caller. -/
theorem c3_no_validation :
    mru_page_replacement [] 0 = .ok (0, 0, []) ∧
    ∀ (p : Int) (rest : List Int),
      mru_page_replacement (p :: rest) 0 = .error "ValueError: None is not in list" :=
  ⟨rfl, fun _ _ => rfl⟩

/-- C2: on a fault with the frames full, the chosen victim is the resident
with the largest recorded recency; a resident with no recency entry gets the
sentinel `-1`, lower than every visited 0-based index; and when several
residents share the maximal recency, the one encountered earliest in frames
iteration order is chosen (everything strictly before the victim has strictly
smaller recency). -/
theorem c2_victim_choice :
    ∀ (fc : Nat) (frames : List Int) (lu : List (Int × Nat)) (page : Int),
      frames.contains page = false → ¬ frames.length < fc →
      (∃ q ∈ frames, -1 < getRecency lu q) →
      ∃ v l1 l2, selectVictim frames lu = some v ∧
        framesUpdate fc frames lu page = .ok (frames.set (frames.indexOf v) page) ∧
        frames = l1 ++ v :: l2 ∧
        (∀ q ∈ frames, getRecency lu q ≤ getRecency lu v) ∧
        (∀ q ∈ l1, getRecency lu q < getRecency lu v) ∧
        (∀ q, lu.lookup q = none → ∀ j : Nat, getRecency lu q < (j : Int)) := by
  intro fc frames lu page hc hl hex
  obtain ⟨v, l1, l2, hv, hsplit, hmax, hfirst⟩ := selectVictim_spec frames lu hex
  refine ⟨v, l1, l2, hv, ?_, hsplit, hmax, hfirst, ?_⟩
  · rw [framesUpdate]
    rw [if_neg (by rw [hc]; simp : ¬ (frames.contains page = true)), if_neg hl, hv]
  · intro q hq j
    rw [getRecency_none lu q hq]
    omega

/-- C2 witness: frames `[1, 2]` with recencies `0` and `1`; the victim is `2`
(largest recency) and the incoming page `3` replaces it in slot 1. -/
theorem c2_witness :
    ∃ v l1 l2, selectVictim [1, 2] [(1, 0), (2, 1)] = some v ∧
      framesUpdate 2 [1, 2] [(1, 0), (2, 1)] 3 =
        .ok (([1, 2] : List Int).set (([1, 2] : List Int).indexOf v) 3) ∧
      ([1, 2] : List Int) = l1 ++ v :: l2 ∧
      (∀ q ∈ ([1, 2] : List Int),
        getRecency [(1, 0), (2, 1)] q ≤ getRecency [(1, 0), (2, 1)] v) ∧
      (∀ q ∈ l1, getRecency [(1, 0), (2, 1)] q < getRecency [(1, 0), (2, 1)] v) ∧
      (∀ q, List.lookup q [(1, 0), (2, 1)] = none →
        ∀ j : Nat, getRecency [(1, 0), (2, 1)] q < (j : Int)) :=
  c2_victim_choice 2 [1, 2] [(1, 0), (2, 1)] 3 (by decide) (by decide)
    ⟨2, by decide, by decide⟩

/-- C5: on a fault with the frames full, the new reference overwrites exactly
the slot of the victim (the position `frames.index(victim)`), the frame list keeps
its length, and every other slot is untouched. -/
theorem c5_inplace_replacement :
    ∀ (fc i : Nat) (page : Int) (st st1 : SimState),
      st.frames.contains page = false → ¬ st.frames.length < fc →
      mruStep fc i page st = .ok st1 →
      ∃ v, selectVictim st.frames st.lastUsed = some v ∧ v ∈ st.frames ∧
        st1.frames = st.frames.set (st.frames.indexOf v) page ∧
        st1.frames.length = st.frames.length ∧
        st.frames.indexOf v < st.frames.length ∧
        st1.frames[st.frames.indexOf v]? = some page ∧
        ∀ k, k ≠ st.frames.indexOf v → st1.frames[k]? = st.frames[k]? := by
  intro fc i page st st1 hc hl h
  obtain ⟨frames1, hf, rfl⟩ := (mruStep_ok_iff fc i page st st1).mp h
  rcases framesUpdate_ok_cases fc st.frames st.lastUsed page frames1 hf with
    ⟨hc1, -⟩ | ⟨-, hl1, -⟩ | ⟨-, -, v, hv, rfl⟩
  · rw [hc1] at hc; cases hc
  · exact absurd hl1 hl
  · have hvm : v ∈ st.frames := selectVictim_mem _ _ _ hv
    have hidx : st.frames.indexOf v < st.frames.length := List.indexOf_lt_length.mpr hvm
    refine ⟨v, hv, hvm, rfl, by simp, hidx, ?_, ?_⟩
    · simp [List.getElem?_set, hidx]
    · intro k hk
      rw [List.getElem?_set_ne (fun he => hk he.symm)]

/-- C5 witness: with frames `[1, 2]` full, recencies `0` and `1`, incoming
page `3` overwrites victim `2` in its slot, leaving slot 0 untouched. -/
theorem c5_witness :
    ∃ v, selectVictim [1, 2] [(1, 0), (2, 1)] = some v ∧ v ∈ ([1, 2] : List Int) ∧
      (SimState.mk [1, 3] [(1, 0), (2, 1), (3, 2)] 3
          [StepRecord.mk 3 3 ["1", "3"] "Fault"]).frames =
        ([1, 2] : List Int).set (([1, 2] : List Int).indexOf v) 3 ∧
      (SimState.mk [1, 3] [(1, 0), (2, 1), (3, 2)] 3
          [StepRecord.mk 3 3 ["1", "3"] "Fault"]).frames.length =
        ([1, 2] : List Int).length ∧
      ([1, 2] : List Int).indexOf v < ([1, 2] : List Int).length ∧
      (SimState.mk [1, 3] [(1, 0), (2, 1), (3, 2)] 3
          [StepRecord.mk 3 3 ["1", "3"] "Fault"]).frames[([1, 2] : List Int).indexOf v]? =
        some 3 ∧
      ∀ k, k ≠ ([1, 2] : List Int).indexOf v →
        (SimState.mk [1, 3] [(1, 0), (2, 1), (3, 2)] 3
            [StepRecord.mk 3 3 ["1", "3"] "Fault"]).frames[k]? =
          (SimState.mk [1, 2] [(1, 0), (2, 1)] 2 []).frames[k]? :=
  c5_inplace_replacement 2 2 3 (SimState.mk [1, 2] [(1, 0), (2, 1)] 2 [])
    (SimState.mk [1, 3] [(1, 0), (2, 1), (3, 2)] 3 [StepRecord.mk 3 3 ["1", "3"] "Fault"])
    (by decide) (by decide) rfl

/-- C8: a successful step always writes `last_used[page] = i` (the recency
update is unconditional, on hits and faults alike), and on a hit the frames —
contents and slot order — and the fault counter are unchanged. -/
theorem c8_hit_no_mutation :
    ∀ (fc i : Nat) (page : Int) (st st1 : SimState),
      mruStep fc i page st = .ok st1 →
      st1.lastUsed = setAssoc st.lastUsed page i ∧
      st1.lastUsed.lookup page = some i ∧
      (st.frames.contains page = true → st1.frames = st.frames ∧ st1.faults = st.faults) := by
  intro fc i page st st1 h
  obtain ⟨frames1, hf, rfl⟩ := (mruStep_ok_iff fc i page st st1).mp h
  refine ⟨rfl, ?_, ?_⟩
  · show (setAssoc st.lastUsed page i).lookup page = some i
    rw [lookup_setAssoc, if_pos rfl]
  · intro hc
    rcases framesUpdate_ok_cases fc st.frames st.lastUsed page frames1 hf with
      ⟨-, rfl⟩ | ⟨hc1, -, -⟩ | ⟨hc1, -, -⟩
    · have hcm : page ∈ st.frames := by simpa using hc
      exact ⟨rfl, by simp [hcm]⟩
    · rw [hc] at hc1; cases hc1
    · rw [hc] at hc1; cases hc1

/-- C8 witness: a hit step (page `7` already resident) updates only the
recency entry. -/
theorem c8_witness :
    ∃ st1, mruStep 3 1 7 (SimState.mk [7] [(7, 0)] 1 []) = .ok st1 ∧
      st1.lastUsed = setAssoc [(7, 0)] 7 1 ∧
      st1.lastUsed.lookup 7 = some 1 ∧
      (([7] : List Int).contains 7 = true → st1.frames = [7] ∧ st1.faults = 1) :=
  ⟨_, rfl, c8_hit_no_mutation 3 1 7 (SimState.mk [7] [(7, 0)] 1 []) _ rfl⟩

/-- C6: with `frameCount ≥ 1`, the frame list never exceeds `frameCount` at
any visited loop state, and every emitted snapshot is padded with the `"-"`
marker to exactly `frameCount` slots, so its non-empty slots never exceed
`frameCount`. -/
theorem c6_capacity_bound :
    ∀ (seq : List Int) (fc : Nat), 1 ≤ fc →
      (∀ s ∈ mruLoopStates fc 0 seq initState, s.frames.length ≤ fc) ∧
      (∀ (f : Nat) (r : Rat) (t : List StepRecord),
        mru_page_replacement seq fc = .ok (f, r, t) →
        ∀ rec ∈ t, rec.frameState.length = fc ∧
          rec.frameState.countP (fun s => s != "-") ≤ fc) := by
  intro seq fc hfc
  constructor
  · intro s hs
    exact (mruLoopStates_good fc seq 0 initState (initState_good fc) s hs).2.1
  · intro f r t h rec hrec
    obtain ⟨-, -, -, -, hrecs⟩ := mru_run_spec seq fc f r t h
    obtain ⟨fr, -, hfr, hpad⟩ := hrecs rec hrec
    have hmap : (fr.map (fun x => toString x)).length ≤ fc := by simpa using hfr
    have hl : rec.frameState.length = fc := by
      rw [hpad]
      exact padSlots_length _ fc hmap
    refine ⟨hl, ?_⟩
    calc rec.frameState.countP (fun s => s != "-") ≤ rec.frameState.length :=
          List.countP_le_length _
      _ = fc := hl

/-- C6 witness: the final visited state of the run `[1, 2, 1]` with three
frames is within capacity. -/
theorem c6_witness :
    (SimState.mk [1, 2] [(1, 2), (2, 1)] 2
        [StepRecord.mk 1 1 ["1", "-", "-"] "Fault",
         StepRecord.mk 2 2 ["1", "2", "-"] "Fault",
         StepRecord.mk 3 1 ["1", "2", "-"] "Hit"]).frames.length ≤ 3 :=
  (c6_capacity_bound [1, 2, 1] 3 (by norm_num)).1
    (SimState.mk [1, 2] [(1, 2), (2, 1)] 2
      [StepRecord.mk 1 1 ["1", "-", "-"] "Fault",
       StepRecord.mk 2 2 ["1", "2", "-"] "Fault",
       StepRecord.mk 3 1 ["1", "2", "-"] "Hit"])
    (by decide)

/-- C9: with `frameCount ≥ 1`, at every visited loop state every resident
identifier already has a recency entry (recorded when it was first placed),
so its consulted recency is the recorded non-negative index and never the
`-1` sentinel default. -/
theorem c9_residents_recorded :
    ∀ (seq : List Int) (fc : Nat), 1 ≤ fc →
      ∀ s ∈ mruLoopStates fc 0 seq initState, ∀ p ∈ s.frames,
        ∃ n : Nat, s.lastUsed.lookup p = some n ∧
          getRecency s.lastUsed p = (n : Int) ∧ -1 < getRecency s.lastUsed p := by
  intro seq fc hfc s hs p hp
  have hrr := (mruLoopStates_good fc seq 0 initState (initState_good fc) s hs).2.2
  have hsome := hrr p hp
  cases hlk : s.lastUsed.lookup p with
  | none => rw [hlk] at hsome; cases hsome
  | some n =>
    have hg := getRecency_some s.lastUsed p n hlk
    refine ⟨n, rfl, hg, ?_⟩
    rw [hg]
    omega

/-- C9 witness: after running `[1, 2]` in a single frame, the resident page
`2` of the final state has the recorded recency `1`, not the sentinel. -/
theorem c9_witness :
    ∃ n : Nat,
      (SimState.mk [2] [(1, 0), (2, 1)] 2
          [StepRecord.mk 1 1 ["1"] "Fault", StepRecord.mk 2 2 ["2"] "Fault"]).lastUsed.lookup 2 =
        some n ∧
      getRecency [(1, 0), (2, 1)] 2 = (n : Int) ∧
      -1 < getRecency [(1, 0), (2, 1)] 2 :=
  c9_residents_recorded [1, 2] 1 (by norm_num)
    (SimState.mk [2] [(1, 0), (2, 1)] 2
      [StepRecord.mk 1 1 ["1"] "Fault", StepRecord.mk 2 2 ["2"] "Fault"])
    (by decide) 2 (by decide)

/-- C10: frame updates preserve distinctness (a reference is only appended or
substituted when absent, and a resident reference leaves the frames
untouched), and consequently every visited loop state of every run has
pairwise-distinct frames. -/
theorem c10_frames_distinct :
    (∀ (fc : Nat) (frames : List Int) (lu : List (Int × Nat)) (page : Int)
        (frames1 : List Int), frames.Nodup →
        framesUpdate fc frames lu page = .ok frames1 → frames1.Nodup) ∧
    (∀ (fc : Nat) (frames : List Int) (lu : List (Int × Nat)) (page : Int),
        frames.contains page = true → framesUpdate fc frames lu page = .ok frames) ∧
    (∀ (seq : List Int) (fc : Nat), ∀ s ∈ mruLoopStates fc 0 seq initState,
        s.frames.Nodup) := by
  refine ⟨?_, ?_, ?_⟩
  · intro fc frames lu page frames1 hnd h
    rcases framesUpdate_ok_cases fc frames lu page frames1 h with
      ⟨-, rfl⟩ | ⟨hc, -, rfl⟩ | ⟨hc, -, v, -, rfl⟩
    · exact hnd
    · have hpm : page ∉ frames := by simpa using hc
      simp [List.nodup_append, hnd, hpm]
    · have hpm : page ∉ frames := by simpa using hc
      exact nodup_set _ _ _ hnd hpm
  · intro fc frames lu page hc
    rw [framesUpdate, if_pos hc]
  · intro seq fc s hs
    exact (mruLoopStates_good fc seq 0 initState (initState_good fc) s hs).1

/-- C10 witness: the final state of running `[1, 2]` in one frame has
duplicate-free frames. -/
theorem c10_witness :
    (SimState.mk [2] [(1, 0), (2, 1)] 2
        [StepRecord.mk 1 1 ["1"] "Fault", StepRecord.mk 2 2 ["2"] "Fault"]).frames.Nodup :=
  c10_frames_distinct.2.2 [1, 2] 1
    (SimState.mk [2] [(1, 0), (2, 1)] 2
      [StepRecord.mk 1 1 ["1"] "Fault", StepRecord.mk 2 2 ["2"] "Fault"])
    (by decide)
